import Mathlib

/-!
A shallow embedding of `cpubars` (a terminal CPU-usage bar chart) and
verified properties of it.  The embedding covers:

* the `/proc/stat` parser (`cpustats_read`),
* the delta engine (`cpustats_subtract`, `cpustats_sets_equal`),
* the layout engine (`ui_layout`),
* the bar-cell computation of the render engine (`ui_compute_bars`
  and its per-cell pieces `findTop2`, `ui_cell`, `ui_blend`).

Machine integers are modelled as `Nat`/`Int`; the C program's
`unsigned long long` subtraction is modelled with an explicit
`% 2^64`, and C `int` division (truncation toward zero) is modelled
with `Int.tdiv`.  `unsigned long long` division (the cutoff
computation) is `Nat` division.
-/

/-! ## Data model: `struct cpustat` and `struct cpustats` -/

/-- Mirror of `struct cpustat`: one online flag plus six unsigned time
accumulators (field order as in the C struct). -/
structure cpustat where
  online : Bool
  user : Nat
  nice : Nat
  sys : Nat
  iowait : Nat
  irq : Nat
  softirq : Nat
deriving Repr, DecidableEq

/-- The all-zero, offline `cpustat` (the zero-filled state produced by
`cpustats_alloc`'s `memset`). -/
def dfltStat : cpustat := ⟨false, 0, 0, 0, 0, 0, 0⟩

/-- Mirror of `struct cpustats`: online count, maximum online index,
elapsed real time, the aggregate entry and the per-CPU entries (the C
array `cpus`, sized to `cpustats_cpus`, is a list here). -/
structure cpustats where
  online : Nat
  max : Nat
  real : Nat
  avg : cpustat
  cpus : List cpustat
deriving Repr, DecidableEq

/-- The online flag of CPU `i` (reading `cpus[i].online`; out-of-range
reads return the zero-filled default). -/
def onlineAt (d : cpustats) (i : Nat) : Bool := (d.cpus.getD i dfltStat).online

/-! ## Stat parser (`cpustats_read`)

The parser walks the text of `/proc/stat` with a cursor.  `sscanf`'s
`" %llu"` directives are modelled by `scanFields`: skip whitespace
(including newlines, as `sscanf` does), then read a decimal number;
the number of matched fields is the length of the returned list. -/

/-- `isdigit` on the characters the parser meets. -/
def isDigitCh (c : Char) : Bool := decide ('0' ≤ c ∧ c ≤ '9')

/-- `isspace` on the characters the parser meets. -/
def isSpaceCh (c : Char) : Bool := c = ' ' || c = '\n' || c = '\t' || c = '\r'

/-- `strtol(pos, &end, 10)` when `pos` starts at a digit: consume the
digit run, returning the value and the rest of the input. -/
def parseNatAux : List Char → Nat → Nat × List Char
  | [], acc => (acc, [])
  | c :: rest, acc =>
    if isDigitCh c then parseNatAux rest (acc * 10 + (c.toNat - 48))
    else (acc, c :: rest)

/-- `sscanf(pos, " %llu %llu ...")` with `k` conversions: repeatedly
skip whitespace and read an unsigned decimal; stop at the first
directive that fails.  Returns the list of matched values. -/
def scanFields : List Char → Nat → List Nat
  | _, 0 => []
  | s, k + 1 =>
    let s' := s.dropWhile (fun c => isSpaceCh c)
    match s' with
    | [] => []
    | c :: _ =>
      if isDigitCh c then
        let p := parseNatAux s' 0
        p.1 :: scanFields p.2 k
      else []

/-- The field assignments of one `cpustats_read` entry: first
`st->iowait = st->irq = st->softirq = 0;`, then the seven `sscanf`
conversions assign `user, nice, sys, (tossed idle), iowait, irq,
softirq` in order, each only if it matched. -/
def applyFields (st : cpustat) (vs : List Nat) : cpustat :=
  let st := { st with iowait := 0, irq := 0, softirq := 0 }
  let st := match vs[0]? with | some v => { st with user := v } | none => st
  let st := match vs[1]? with | some v => { st with nice := v } | none => st
  let st := match vs[2]? with | some v => { st with sys := v } | none => st
  let st := match vs[4]? with | some v => { st with iowait := v } | none => st
  let st := match vs[5]? with | some v => { st with irq := v } | none => st
  match vs[6]? with | some v => { st with softirq := v } | none => st

/-- The `next:` label of `cpustats_read`: advance the cursor past the
next newline (`while (*pos && *pos != '\n') pos++; if (*pos) pos++;`). -/
def dropLine : List Char → List Char
  | [] => []
  | c :: rest => if c = '\n' then rest else dropLine rest

/-- The `while (strncmp(pos, "cpu", 3) == 0)` loop of `cpustats_read`.
The fuel argument only bounds the recursion; every iteration consumes
at least three characters of the cursor, so `buf.length + 1` fuel is
never exhausted.  Note that a line whose `sscanf` matches fewer than
four fields hits the C `continue`, which retests the loop condition
with the cursor still inside the current line (it does not jump to
`next:`). -/
def readGo (ncpus : Nat) : Nat → cpustats → List Char → cpustats
  | 0, st, _ => st
  | fuel + 1, st, pos =>
    if ['c', 'p', 'u'].isPrefixOf pos then
      let pos := pos.drop 3
      match pos with
      | ' ' :: _ =>
        -- aggregate line: st = &out->avg, cpu = -1
        let vs := scanFields pos 7
        if vs.length < 4 then readGo ncpus fuel st pos
        else
          let st' := { st with avg := { applyFields st.avg vs with online := true } }
          readGo ncpus fuel st' (dropLine pos)
      | c :: _ =>
        if isDigitCh c then
          let p := parseNatAux pos 0
          let cpu := p.1
          let pos' := p.2
          if ncpus ≤ cpu then readGo ncpus fuel st (dropLine pos')
          else
            let vs := scanFields pos' 7
            if vs.length < 4 then readGo ncpus fuel st pos'
            else
              let entry := { applyFields (st.cpus.getD cpu dfltStat) vs with online := true }
              let st' := { st with
                           cpus := st.cpus.set cpu entry,
                           online := st.online + 1,
                           max := if st.max < cpu then cpu else st.max }
              readGo ncpus fuel st' (dropLine pos')
        else readGo ncpus fuel st (dropLine pos)
      | [] => readGo ncpus fuel st (dropLine pos)
    else st

/-- Mirror of `cpustats_read`: clear every per-CPU online flag (the
aggregate's flag and all counter values persist from the previous
read), reset `online`/`max`, record the timestamp, then parse the
buffer.  The read itself never fails once the buffer is in hand. -/
def cpustats_read (ncpus : Nat) (prev : cpustats) (realNow : Nat) (buf : List Char) : cpustats :=
  let st0 : cpustats :=
    { prev with
      online := 0, max := 0, real := realNow,
      cpus := prev.cpus.map (fun c => { c with online := false }) }
  readGo ncpus (buf.length + 1) st0 buf

/-! ## Delta engine (`cpustats_subtract`, `cpustats_sets_equal`) -/

/-- Word size of the C `unsigned long long` counters. -/
def W64 : Nat := 2 ^ 64

/-- C `unsigned long long` subtraction `a - b` (for `a, b < 2^64`). -/
def wsub (a b : Nat) : Nat := (a + W64 - b) % W64

/-- Mirror of `cpustats_subtract1`: the output is online only if both
inputs are; only then are the six fields written (otherwise the
previous contents of `out` persist). -/
def cpustat_sub1 (old a b : cpustat) : cpustat :=
  if a.online && b.online then
    ⟨true, wsub a.user b.user, wsub a.nice b.nice, wsub a.sys b.sys,
      wsub a.iowait b.iowait, wsub a.irq b.irq, wsub a.softirq b.softirq⟩
  else { old with online := false }

/-- The `out->online++` accumulation of `cpustats_subtract`: the number
of online entries. -/
def countOnline : List cpustat → Nat
  | [] => 0
  | c :: rest => (if c.online then 1 else 0) + countOnline rest

/-- The `out->max = i` accumulation of `cpustats_subtract`: fold over
the entries with their indices, remembering the last online index. -/
def maxOnlineAux : List cpustat → Nat → Nat → Nat
  | [], _, acc => acc
  | c :: rest, i, acc => maxOnlineAux rest (i + 1) (if c.online then i else acc)

/-- The maximum online index computed by `cpustats_subtract`'s loop
(0 when no entry is online). -/
def cpusMaxOnline (l : List cpustat) : Nat := maxOnlineAux l 0 0

/-- Mirror of `cpustats_subtract` over `ncpus` entries.  `old` is the
previous contents of the output buffer (its stale fields persist in
offline entries, as in the C). -/
def cpustats_subtract (ncpus : Nat) (old a b : cpustats) : cpustats :=
  let cpus' := (List.range ncpus).map
    (fun i => cpustat_sub1 (old.cpus.getD i dfltStat) (a.cpus.getD i dfltStat)
      (b.cpus.getD i dfltStat))
  { online := countOnline cpus'
    max := cpusMaxOnline cpus'
    real := wsub a.real b.real
    avg := cpustat_sub1 old.avg a.avg b.avg
    cpus := cpus' }

/-- Well-formedness of a delta: exactly the relationship between
`online`, `max` and the entry list that `cpustats_subtract`
establishes. -/
def cpustats_wf (ncpus : Nat) (d : cpustats) : Prop :=
  d.cpus.length = ncpus ∧ d.online = countOnline d.cpus ∧ d.max = cpusMaxOnline d.cpus

/-- The `for (i = 0; i < a->max; i++)` comparison loop of
`cpustats_sets_equal`. -/
def setsEqLoop (a b : cpustats) : Nat → Bool
  | 0 => true
  | i + 1 => setsEqLoop a b i && (onlineAt a i == onlineAt b i)

/-- Mirror of `cpustats_sets_equal`: false if the maxima or online
counts differ, else compare the online flags of indices `0 ≤ i < a.max`. -/
def cpustats_sets_equal (a b : cpustats) : Bool :=
  if a.max ≠ b.max ∨ a.online ≠ b.online then false
  else setsEqLoop a b a.max

/-! ## Layout engine (`ui_layout`)

Only the pure geometry of `ui_layout` is modelled (panes, bars,
`ui_bar_length`, `ui_bar_width`); the terminal drawing it interleaves
is output-only.  Quantities the C holds in `int` variables are `Int`
here; `MAX(0, ...)` clamps appear exactly where the C has them.  The
`horizontal` field records which label-orientation branch ran. -/

/-- Mirror of `struct ui_bar`. -/
structure ui_bar where
  start : Int
  width : Int
  cpu : Int
deriving Repr, DecidableEq

/-- Mirror of `struct ui_pane`. -/
structure ui_pane where
  start : Int
  barpos : Int
  width : Int
deriving Repr, DecidableEq

/-- The layout state owned by the UI after `ui_layout` runs. -/
structure Layout where
  panes : List ui_pane
  bars : List ui_bar
  bar_length : Int
  bar_width : Int
  horizontal : Bool
deriving Repr, DecidableEq

/-- Decimal digit count of `n` (the `snprintf(buf, …, "%d", max)` /
`strlen` pair).  The fuel argument only bounds the recursion; `n`
itself is always enough. -/
def decDigitsGo : Nat → Nat → Nat
  | 0, _ => 1
  | fuel + 1, n => if n < 10 then 1 else 1 + decDigitsGo fuel (n / 10)

/-- Number of decimal digits of `n`. -/
def decDigits (n : Nat) : Nat := decDigitsGo n n

/-- `ui_bar_width = ui_bars[ui_num_bars-1].start + ui_bars[ui_num_bars-1].width`. -/
def lastBarEnd : List ui_bar → Int
  | [] => 0
  | [b] => b.start + b.width
  | _ :: rest => lastBarEnd rest

/-- Trim the last pane to the right width:
`ui_panes[n-1].width = ui_bar_width - ui_panes[n-1].barpos`. -/
def trimLastPane (bw : Int) : List ui_pane → List ui_pane
  | [] => []
  | [p] => [{ p with width := bw - p.barpos }]
  | p :: rest => p :: trimLastPane bw rest

/-- Mirror of `ui_layout` (pure geometry).  `ncol`/`nrow` are the
terminal's `COLS`/`LINES`. -/
def ui_layout (cpus : cpustats) (ncol nrow : Int) : Layout :=
  let len : Int := (decDigits cpus.max : Int)
  let w : Int := ncol - 4
  let avgBar : ui_bar := ⟨0, 3, -1⟩
  let idxs : List Nat := (List.range (cpus.max + 1)).filter (fun i => onlineAt cpus i)
  if (len + 1) * (cpus.online : Int) < w then
    -- lay out the labels horizontally
    let bars := avgBar ::
      idxs.enum.map (fun p => (⟨4 + (p.1 : Int) * (len + 1), len, (p.2 : Int)⟩ : ui_bar))
    let bw := lastBarEnd bars
    { panes := trimLastPane bw [⟨1, 0, 0⟩], bars := bars,
      bar_length := max 0 (nrow - 1 - 2), bar_width := bw, horizontal := true }
  else
    -- lay out the labels vertically
    let pad : Int := if (cpus.online : Int) * 2 < w then 1 else 0
    let bars := avgBar ::
      idxs.enum.map (fun p => (⟨4 + (p.1 : Int) * (pad + 1), 1, (p.2 : Int)⟩ : ui_bar))
    let bw := lastBarEnd bars
    if (cpus.online : Int) * 2 < w then
      { panes := trimLastPane bw [⟨len, 0, 0⟩], bars := bars,
        bar_length := max 0 (nrow - len - 2), bar_width := bw, horizontal := false }
    else if w ≤ (cpus.online : Int) ∧ 2 ≤ ncol then
      -- we don't have space for all of them: multiple panes
      let totalw : Int := 4 + (cpus.online : Int)
      let np : Int := Int.tdiv (totalw + ncol - 2) (ncol - 1)
      let plength : Int := Int.tdiv (nrow - 2) np
      let panes0 := (List.range np.toNat).map
        (fun (i : Nat) =>
          (⟨(np - (i : Int) - 1) * plength + len, (i : Int) * (ncol - 1), ncol - 1⟩ : ui_pane))
      { panes := trimLastPane bw panes0, bars := bars,
        bar_length := max 0 (plength - len), bar_width := bw, horizontal := false }
    else
      { panes := trimLastPane bw [⟨len, 0, 0⟩], bars := bars,
        bar_length := max 0 (nrow - len - 2), bar_width := bw, horizontal := false }

/-! ## Render engine: bar cell computation (`ui_compute_bars`)

`ui_stats` lists the six categories in order `nice, user, sys, iowait,
irq, softirq`, with curses colors `GREEN(2), BLUE(4), RED(1), CYAN(6),
MAGENTA(5), YELLOW(3)`, and a sentinel whose color byte is `0xff`. -/

/-- Number of real entries of `ui_stats`. -/
def NSTATS : Nat := 6

/-- Number of cell glyphs (`ui_chars`): a space plus the lower
one-eighth … seven-eighths blocks. -/
def NCHARS : Nat := 8

/-- The fixed-point resolution of a display cell (`enum { subcells = 256 }`). -/
def subcells : Nat := 256

/-- `ui_stats[i].color` (index `NSTATS` is the `0xff` sentinel). -/
def statColor : Nat → Nat
  | 0 => 2
  | 1 => 4
  | 2 => 1
  | 3 => 6
  | 4 => 5
  | 5 => 3
  | _ => 255

/-- The counter field read through `ui_stats[i].offset`. -/
def statField (c : cpustat) : Nat → Nat
  | 0 => c.nice
  | 1 => c.user
  | 2 => c.sys
  | 3 => c.iowait
  | 4 => c.irq
  | 5 => c.softirq
  | _ => 0

/-- The running sum `cumm` after adding `ui_stats[i]`'s field. -/
def cumm (c : cpustat) : Nat → Nat
  | 0 => statField c 0
  | i + 1 => cumm c i + statField c (i + 1)

/-- The cutoff array of one bar: `cutoff[i] = cumm * ui_bar_length *
subcells / scale` for `i < NSTATS` (unsigned arithmetic) and the fixed
sentinel `cutoff[NSTATS] = ui_bar_length * subcells`. -/
def barCutoff (c : cpustat) (barLen scale : Nat) (i : Nat) : Int :=
  if i < NSTATS then ((cumm c i * barLen * subcells) / scale : Nat)
  else (barLen * subcells : Nat)

/-- One cell's `(display, fore, back)` bytes.  Defaults (from the
`memset`s) are glyph 0 (a space) and attribute `0xff`. -/
structure Cell where
  disp : Nat
  fore : Nat
  back : Nat
deriving Repr, DecidableEq

/-- The memset state of a cell. -/
def defaultCell : Cell := ⟨0, 255, 255⟩

/-- The `for (; stat < NSTATS + 1; stat++)` scan that looks for the two
segments covering the current cell the most.  `val` starts at `lo` and
each iteration recomputes `val = MIN(cutoff[stat], hi) - val` (note:
minus the previous value of `val`, not the previous cutoff), pushing
`val` through the two-place leaderboard `t0, t1` (values initialised
to −1).  The loop breaks once `cutoff[stat] >= hi`.  The fuel argument
is `NSTATS + 1 - stat`, which makes it exactly the C loop condition
`stat < NSTATS + 1`. -/
def findTop2Go (cutoff : Nat → Int) (hi : Int) :
    Nat → Nat → Int → Nat × Int → Nat × Int → Nat × (Nat × Int) × (Nat × Int)
  | 0, stat, _, t0, t1 => (stat, t0, t1)
  | fuel + 1, stat, val, t0, t1 =>
    let v := min (cutoff stat) hi - val
    let p : (Nat × Int) × (Nat × Int) :=
      if t0.2 < v then ((stat, v), t0)
      else if t1.2 < v then (t0, (stat, v))
      else (t0, t1)
    if hi ≤ cutoff stat then (stat, p)
    else findTop2Go cutoff hi fuel (stat + 1) v p.1 p.2

/-- The two-biggest-segment scan entered at `stat`. -/
def findTop2 (cutoff : Nat → Int) (hi : Int) (stat : Nat) (val : Int)
    (t0 t1 : Nat × Int) : Nat × (Nat × Int) × (Nat × Int) :=
  findTop2Go cutoff hi (NSTATS + 1 - stat) stat val t0 t1

/-- The Unicode two-category fill (the code after the `topVal` check):
order the two segments by stat index so the earlier stat goes on the
bottom, pick the split glyph `cell = topVal[0] * NCHARS / (topVal[0] +
topVal[1])`, and fill the cell — except that a split of `NCHARS - 1`
is left as a space with the color roles reversed. -/
def ui_blend (t0 t1 : Nat × Int) : Cell :=
  let s := if t1.1 < t0.1 then t1 else t0
  let t := if t1.1 < t0.1 then t0 else t1
  let cell : Int := Int.tdiv (s.2 * (NCHARS : Int)) (s.2 + t.2)
  if cell = (NCHARS : Int) - 1 then ⟨0, 255, statColor s.1⟩
  else ⟨cell.toNat, statColor s.1, statColor t.1⟩

/-- One iteration of the `for (len = stat = 0; ...)` cell loop: either
the cell is entirely covered by segment `stat` (solid background), or
the two top segments are found and the cell is filled (ASCII mode:
only the biggest cover's background).  Returns `none` exactly when the
`topVal[0] == -1 || topVal[1] == -1` "bug" branch would `panic`. -/
def ui_cell (ascii : Bool) (cutoff : Nat → Int) (len stat : Nat) : Option (Cell × Nat) :=
  let lo : Int := (len * subcells : Nat)
  let hi : Int := ((len + 1) * subcells : Nat)
  if hi ≤ cutoff stat then some (⟨0, 255, statColor stat⟩, stat)
  else
    let r := findTop2 cutoff hi stat lo (0, -1) (0, -1)
    if r.2.1.2 = -1 ∨ r.2.2.2 = -1 then none
    else if ascii then some (⟨0, 255, statColor r.2.1.1⟩, r.1)
    else some (ui_blend r.2.1 r.2.2, r.1)

/-- The cell loop of one bar, producing the `ui_bar_length` cells of
its first column.  The loop runs while `len < ui_bar_length && stat <
NSTATS`; remaining cells keep their memset defaults.  The fuel is
`barLen - len`, making it exactly the `len < ui_bar_length` condition. -/
def ui_columnGo (ascii : Bool) (cutoff : Nat → Int) (barLen : Nat) :
    Nat → Nat → Nat → Option (List Cell)
  | 0, len, _ => some (List.replicate (barLen - len) defaultCell)
  | fuel + 1, len, stat =>
    if stat < NSTATS then
      match ui_cell ascii cutoff len stat with
      | none => none
      | some (c, stat') =>
        match ui_columnGo ascii cutoff barLen fuel (len + 1) stat' with
        | none => none
        | some rest => some (c :: rest)
    else some (List.replicate (barLen - len) defaultCell)

/-- The cells of one bar's column, or `none` if the internal "bug"
branch is reached. -/
def ui_bar_column (ascii : Bool) (cutoff : Nat → Int) (barLen : Nat) : Option (List Cell) :=
  ui_columnGo ascii cutoff barLen barLen 0 0

/-- The bar's scale: `scale = delta->real`, times `delta->online` for
the aggregate bar (`cpu == -1`). -/
def barScale (delta : cpustats) (bar : ui_bar) : Nat :=
  if bar.cpu = -1 then delta.real * delta.online else delta.real

/-- The `struct cpustat` a bar reads:
`delta->avg` for the average bar, else `delta->cpus[bar.cpu]`. -/
def barStat (delta : cpustats) (bar : ui_bar) : cpustat :=
  if bar.cpu = -1 then delta.avg else delta.cpus.getD bar.cpu.toNat dfltStat

/-- `ui_compute_bars`: the per-bar columns of the whole frame (bars
wider than one column replicate this column). -/
def ui_compute_bars (ascii : Bool) (delta : cpustats) (bars : List ui_bar)
    (barLen : Nat) : Option (List (List Cell)) :=
  bars.mapM (fun b => ui_bar_column ascii (barCutoff (barStat delta b) barLen (barScale delta b)) barLen)

/-- Every divisor used by `ui_compute_bars` for a frame: each bar's
cutoff computation divides by that bar's scale, and the whole
computation runs only when `delta->real` is nonzero. -/
def frameDivisors (delta : cpustats) (bars : List ui_bar) : List Nat :=
  if delta.real ≠ 0 then bars.map (barScale delta) else []

/-- Result of one main-loop frame's conditional render step. -/
inductive FrameResult (α : Type) where
  | skipped : FrameResult α
  | rendered : α → FrameResult α
deriving Repr, DecidableEq

/-- The `if (delta->real) { ui_compute_bars(delta); ui_show_bars(); }`
step of `main`'s loop. -/
def ui_frame (ascii : Bool) (delta : cpustats) (bars : List ui_bar)
    (barLen : Nat) : FrameResult (Option (List (List Cell))) :=
  if delta.real ≠ 0 then .rendered (ui_compute_bars ascii delta bars barLen) else .skipped

/-! ## Spec-side definitions

`spec_segCover` is written from the specification's words, not from
the code: the coverage of segment `s` within display cell `len` is the
part of `[cutoff[s-1], cutoff[s])` (with `cutoff[-1] = 0`) that falls
inside the cell's subcell span `[len*256, (len+1)*256)`.  It exists to
compare the code's segment selection against the spec's
"largest-coverage" language. -/
def spec_segCover (cutoff : Nat → Int) (len s : Nat) : Int :=
  let lo : Int := (len * subcells : Nat)
  let hi : Int := ((len + 1) * subcells : Nat)
  let prev : Int := if s = 0 then 0 else cutoff (s - 1)
  min (cutoff s) hi - max prev lo

/-! ## Pointwise predicates used by the delta-engine claims -/

/-- Monotone counters: each of the six fields of the older sample `b`
is at most the corresponding field of the newer sample `a`. -/
def statLE (b a : cpustat) : Prop :=
  b.user ≤ a.user ∧ b.nice ≤ a.nice ∧ b.sys ≤ a.sys
  ∧ b.iowait ≤ a.iowait ∧ b.irq ≤ a.irq ∧ b.softirq ≤ a.softirq

/-- All six fields fit in the 64-bit counter word. -/
def statBounded (c : cpustat) : Prop :=
  c.user < W64 ∧ c.nice < W64 ∧ c.sys < W64
  ∧ c.iowait < W64 ∧ c.irq < W64 ∧ c.softirq < W64

/-- `d` is the exact (hence non-negative) per-field difference
`a - b`: adding `b` back recovers `a`, with no wraparound. -/
def exactDiff (d a b : cpustat) : Prop :=
  d.user + b.user = a.user ∧ d.nice + b.nice = a.nice ∧ d.sys + b.sys = a.sys
  ∧ d.iowait + b.iowait = a.iowait ∧ d.irq + b.irq = a.irq ∧ d.softirq + b.softirq = a.softirq

/-- Number of online flags set among indices `0 ≤ i < n` (an
index-based view of `countOnline`, used to relate the online counter
to the per-index pattern). -/
def cntIdx (l : List cpustat) : Nat → Nat
  | 0 => 0
  | n + 1 => cntIdx l n + (if (l.getD n dfltStat).online then 1 else 0)

/-! ## Concrete instances used by the claims -/

/-- A `/proc/stat` buffer whose `cpu0` line reports only three fields
while the following `cpu1` line is fully well formed. -/
def c1buf : List Char := "cpu0 1 2 3\ncpu1 5 6 7 8\n".toList

/-- A freshly allocated 4-CPU stats buffer. -/
def c1init : cpustats :=
  { online := 0, max := 0, real := 0, avg := dfltStat, cpus := List.replicate 4 dfltStat }

/-- An online entry with zeroed counters. -/
def onlineZero : cpustat := { dfltStat with online := true }

/-- A delta with 4 online CPUs at indices 0–3. -/
def c6delta : cpustats :=
  { online := 4, max := 3, real := 100, avg := onlineZero, cpus := List.replicate 4 onlineZero }

/-- A delta with 200 online CPUs at indices 0–199. -/
def c7delta : cpustats :=
  { online := 200, max := 199, real := 100, avg := onlineZero, cpus := List.replicate 200 onlineZero }

/-- The layout of the 200-CPU delta on an 80×24 terminal. -/
def c7layout : Layout := ui_layout c7delta 80 24

/-- A per-CPU entry whose cutoffs on a 2-cell bar with scale 512 are
`456, 512, 512, 512, 512, 512`: in cell 1 category 0 covers 200 of 256
subcells and category 1 only 56. -/
def c8stat : cpustat := { dfltStat with online := true, nice := 456, user := 56 }

/-- A cutoff array (1-cell bar) whose only boundary is at 100:
category 0 covers 100 subcells of the cell, category 1 covers 156. -/
def c3cutoff : Nat → Int := fun i => if i = 0 then 100 else 256

/-- A delta whose elapsed real time is zero. -/
def zeroReal : cpustats :=
  { online := 4, max := 3, real := 0, avg := onlineZero, cpus := List.replicate 4 onlineZero }

/-- A delta with positive real time but no online CPU: the aggregate
bar's scale degenerates to zero. -/
def aggZeroOnline : cpustats :=
  { online := 0, max := 0, real := 1, avg := onlineZero, cpus := [] }

/-- Newer snapshot for the subtraction witness. -/
def snapA : cpustats :=
  { online := 1, max := 0, real := 10,
    avg := { onlineZero with user := 7, nice := 5 },
    cpus := [{ onlineZero with user := 4, sys := 9 }] }

/-- Older snapshot for the subtraction witness. -/
def snapB : cpustats :=
  { online := 1, max := 0, real := 4,
    avg := { onlineZero with user := 3, nice := 5 },
    cpus := [{ onlineZero with user := 1, sys := 2 }] }

/-- A bar entry whose six category sums stay below its scale. -/
def c10stat : cpustat := { dfltStat with online := true, nice := 30, user := 20, sys := 10 }

/-- A small well-formed delta (CPU 1 online, CPU 0 offline). -/
def wfA : cpustats :=
  { online := 1, max := 1, real := 0, avg := dfltStat, cpus := [dfltStat, onlineZero] }

/-- `wfA` with CPU 0's online status flipped. -/
def wfB : cpustats :=
  { online := 2, max := 1, real := 0, avg := dfltStat, cpus := [onlineZero, onlineZero] }

/-! ## Helper lemmas -/

theorem getD_len_le {α : Type} : ∀ (l : List α) (i : Nat) (d : α), l.length ≤ i → l.getD i d = d
  | [], _, _, _ => rfl
  | _ :: _, 0, _, h => by simp at h
  | _ :: rest, i + 1, d, h => by
    simpa [List.getD_cons_succ] using getD_len_le rest i d (by simpa using h)

theorem getD_map_range {α : Type} (f : Nat → α) (n i : Nat) (d : α) (h : i < n) :
    ((List.range n).map f).getD i d = f i := by
  simp [List.getD, List.getElem?_map, List.getElem?_range, h]

theorem trimLastPane_length (bw : Int) (l : List ui_pane) :
    (trimLastPane bw l).length = l.length := by
  induction l with
  | nil => rfl
  | cons p rest ih =>
    cases rest with
    | nil => rfl
    | cons q rest' => simpa [trimLastPane] using ih

theorem setsEqLoop_iff (a b : cpustats) (n : Nat) :
    setsEqLoop a b n = true ↔ ∀ i, i < n → onlineAt a i = onlineAt b i := by
  induction n with
  | zero => simp [setsEqLoop]
  | succ n ih =>
    simp only [setsEqLoop, Bool.and_eq_true, beq_iff_eq, ih]
    constructor
    · rintro ⟨h1, h2⟩ i hi
      rcases Nat.lt_succ_iff_lt_or_eq.mp hi with h | h
      · exact h1 i h
      · subst h; exact h2
    · intro h
      exact ⟨fun i hi => h i (Nat.lt_succ_of_lt hi), h n (Nat.lt_succ_self n)⟩

theorem maxOnlineAux_acc_le : ∀ (l : List cpustat) (i acc : Nat),
    acc ≤ i → acc ≤ maxOnlineAux l i acc := by
  intro l
  induction l with
  | nil => intro i acc h; exact Nat.le_refl acc
  | cons c rest ih =>
    intro i acc h
    simp only [maxOnlineAux]
    have h1 : (if c.online then i else acc) ≤ i + 1 := by split <;> omega
    have h2 : acc ≤ (if c.online then i else acc) := by split <;> omega
    exact Nat.le_trans h2 (ih (i + 1) _ h1)

theorem maxOnlineAux_ge : ∀ (l : List cpustat) (i acc k : Nat), k < l.length →
    (l.getD k dfltStat).online = true → i + k ≤ maxOnlineAux l i acc := by
  intro l
  induction l with
  | nil => intro i acc k h; simp at h
  | cons c rest ih =>
    intro i acc k hk hon
    cases k with
    | zero =>
      simp only [List.getD_cons_zero] at hon
      simp only [maxOnlineAux, hon, if_true]
      simpa using maxOnlineAux_acc_le rest (i + 1) i (Nat.le_succ i)
    | succ k =>
      simp only [List.getD_cons_succ] at hon
      simp only [maxOnlineAux]
      have := ih (i + 1) (if c.online then i else acc) k (by simpa using hk) hon
      omega

theorem maxOnlineAux_bound : ∀ (l : List cpustat) (i acc : Nat),
    maxOnlineAux l i acc = acc ∨ maxOnlineAux l i acc < i + l.length := by
  intro l
  induction l with
  | nil => intro i acc; exact Or.inl rfl
  | cons c rest ih =>
    intro i acc
    simp only [maxOnlineAux]
    rcases ih (i + 1) (if c.online then i else acc) with h | h
    · rw [h]
      split
      · right; simp only [List.length_cons]; omega
      · left; rfl
    · right; simp only [List.length_cons] at h ⊢; omega

theorem cntIdx_congr (l1 l2 : List cpustat) (n : Nat)
    (h : ∀ i, i < n → (l1.getD i dfltStat).online = (l2.getD i dfltStat).online) :
    cntIdx l1 n = cntIdx l2 n := by
  induction n with
  | zero => rfl
  | succ n ih =>
    simp only [cntIdx]
    rw [ih (fun i hi => h i (Nat.lt_succ_of_lt hi)), h n (Nat.lt_succ_self n)]

theorem cntIdx_stable (l : List cpustat) (m : Nat) : ∀ n, m ≤ n →
    (∀ i, m ≤ i → i < n → (l.getD i dfltStat).online = false) →
    cntIdx l n = cntIdx l m := by
  intro n
  induction n with
  | zero => intro h _; have hm0 : m = 0 := by omega
            rw [hm0]
  | succ n ih =>
    intro hm hoff
    by_cases hmn : m = n + 1
    · rw [hmn]
    · have hm' : m ≤ n := by omega
      simp only [cntIdx]
      rw [hoff n hm' (Nat.lt_succ_self n)]
      simpa using ih hm' (fun i h1 h2 => hoff i h1 (Nat.lt_succ_of_lt h2))

theorem cntIdx_cons (c : cpustat) (rest : List cpustat) : ∀ n,
    cntIdx (c :: rest) (n + 1) = (if c.online then 1 else 0) + cntIdx rest n := by
  intro n
  induction n with
  | zero => simp [cntIdx]
  | succ n ih =>
    have : cntIdx (c :: rest) (n + 1 + 1)
        = cntIdx (c :: rest) (n + 1) + (if ((c :: rest).getD (n + 1) dfltStat).online then 1 else 0) := rfl
    rw [this, ih, List.getD_cons_succ]
    simp only [cntIdx]
    omega

theorem countOnline_eq_cntIdx : ∀ l : List cpustat, countOnline l = cntIdx l l.length := by
  intro l
  induction l with
  | nil => rfl
  | cons c rest ih => simp only [countOnline, List.length_cons, cntIdx_cons, ih]

theorem cntIdx_flip (l1 l2 : List cpustat) (j : Nat) : ∀ n, j < n →
    (∀ i, i < n → i ≠ j → (l1.getD i dfltStat).online = (l2.getD i dfltStat).online) →
    (l1.getD j dfltStat).online ≠ (l2.getD j dfltStat).online →
    cntIdx l1 n ≠ cntIdx l2 n := by
  intro n
  induction n with
  | zero => omega
  | succ n ih =>
    intro hj hagree hne
    simp only [cntIdx]
    by_cases hjn : j = n
    · subst hjn
      have hcnt : cntIdx l1 j = cntIdx l2 j :=
        cntIdx_congr l1 l2 j (fun i hi => hagree i (Nat.lt_succ_of_lt hi) (by omega))
      rcases Bool.eq_false_or_eq_true (l1.getD j dfltStat).online with h1 | h1 <;>
        rcases Bool.eq_false_or_eq_true (l2.getD j dfltStat).online with h2 | h2
      · exact absurd (h1.trans h2.symm) hne
      · rw [hcnt, h1, h2]; simp
      · rw [hcnt, h1, h2]; simp
      · exact absurd (h1.trans h2.symm) hne
    · have hj' : j < n := by omega
      have hne' := ih hj' (fun i hi => hagree i (Nat.lt_succ_of_lt hi)) hne
      rw [hagree n (Nat.lt_succ_self n) (by omega)]
      intro hEq
      exact hne' (Nat.add_right_cancel hEq)

/-! ## Claim theorems -/

/-- Claim C1 (the code, not the claim): on a sample whose `cpu0` line
reports only three fields, `cpustats_read` leaves not only that entry
but also the fully well-formed following `cpu1` line offline — the
`continue` retests the loop condition mid-line, so the parse loop
exits and every subsequent CPU entry of the sample is dropped.  The
read still returns normally (it is not fatal). -/
theorem read_stops_at_short_cpu_line :
    ((cpustats_read 4 c1init 0 c1buf).cpus.getD 1 dfltStat).online = false
    ∧ (cpustats_read 4 c1init 0 c1buf).online = 0
    ∧ 4 ≤ (scanFields (" 5 6 7 8\n".toList) 7).length := by decide

/-- Claim C2: when the delta's elapsed real time is zero, the frame's
conditional render step is skipped entirely — neither bar computation
nor bar rendering runs — and the frame performs no division at all
(its divisor list is empty). -/
theorem frame_skipped_when_real_zero (ascii : Bool) (delta : cpustats)
    (bars : List ui_bar) (barLen : Nat) (h : delta.real = 0) :
    ui_frame ascii delta bars barLen = FrameResult.skipped
    ∧ frameDivisors delta bars = [] := by
  constructor <;> simp [ui_frame, frameDivisors, h]

/-- Witness for C2 at a concrete zero-time delta. -/
theorem frame_skipped_when_real_zero_witness :
    ui_frame false zeroReal [⟨0, 3, -1⟩] 21 = FrameResult.skipped
    ∧ frameDivisors zeroReal [⟨0, 3, -1⟩] = [] :=
  frame_skipped_when_real_zero false zeroReal [⟨0, 3, -1⟩] 21 rfl

/-- Claim C3, counterexample: in Unicode mode, for the cell whose two
partly-covering categories are 0 (coverage 100 of 256) and 1
(coverage 156 of 256), the majority category is 1 (color 4), the
chosen glyph 3 is neither the empty space nor the `NCHARS - 1`
exception, and yet the cell's foreground is 2 (the minority, category
0) and its background 4 — the opposite of "foreground = majority,
background = minority". -/
theorem blend_majority_counterexample :
    ui_cell false c3cutoff 0 0 = some (⟨3, 2, 4⟩, 1)
    ∧ spec_segCover c3cutoff 0 0 < spec_segCover c3cutoff 0 1
    ∧ statColor 1 = 4
    ∧ (3 : Nat) ≠ 0 ∧ (3 : Nat) ≠ NCHARS - 1
    ∧ (2 : Nat) ≠ 4 := by decide

/-- Claim C3 (amended): in Unicode mode, after ordering the two
selected categories by index, the foreground is the lower-indexed
(bottom) category's color and the background the higher-indexed one's,
regardless of which has larger coverage; except that when the glyph
split computes to `NCHARS - 1` the cell stays a space and only the
background is set, to the lower-indexed category. -/
theorem blend_orders_colors_by_stat_index (t0 t1 : Nat × Int) (hne : t0.1 ≠ t1.1)
    (vlo vhi : Int) (hvlo : vlo = if t0.1 < t1.1 then t0.2 else t1.2)
    (hvhi : vhi = if t0.1 < t1.1 then t1.2 else t0.2) :
    ui_blend t0 t1 =
      if Int.tdiv (vlo * (NCHARS : Int)) (vlo + vhi) = (NCHARS : Int) - 1 then
        ⟨0, 255, statColor (min t0.1 t1.1)⟩
      else
        ⟨(Int.tdiv (vlo * (NCHARS : Int)) (vlo + vhi)).toNat,
          statColor (min t0.1 t1.1), statColor (max t0.1 t1.1)⟩ := by
  subst hvlo hvhi
  rcases Nat.lt_trichotomy t0.1 t1.1 with h | h | h
  · have h1 : ¬ t1.1 < t0.1 := by omega
    have h2 : min t0.1 t1.1 = t0.1 := by omega
    have h3 : max t0.1 t1.1 = t1.1 := by omega
    simp only [ui_blend, if_pos h, if_neg h1, h2, h3]
  · exact absurd h hne
  · have h1 : ¬ t0.1 < t1.1 := by omega
    have h2 : min t0.1 t1.1 = t1.1 := by omega
    have h3 : max t0.1 t1.1 = t0.1 := by omega
    simp only [ui_blend, if_pos h, if_neg h1, h2, h3]

/-- Witness for the amended C3 at the counterexample's two segments. -/
theorem blend_orders_colors_by_stat_index_witness :
    ui_blend (1, 156) (0, 100) =
      if Int.tdiv ((100 : Int) * (NCHARS : Int)) ((100 : Int) + 156) = (NCHARS : Int) - 1 then
        ⟨0, 255, statColor (min 1 0)⟩
      else
        ⟨(Int.tdiv ((100 : Int) * (NCHARS : Int)) ((100 : Int) + 156)).toNat,
          statColor (min 1 0), statColor (max 1 0)⟩ :=
  blend_orders_colors_by_stat_index (1, 156) (0, 100) (by decide) 100 156 (by decide) (by decide)

/-- Claim C6: 4 online CPUs (indices 0–3) on an 80×24 terminal with
label width 1 produce the horizontal layout with exactly 5 bars — the
average bar at column 0 with width 3, then per-CPU bars of width 1 at
columns 4, 6, 8, 10. -/
theorem layout_4cpu_80x24 :
    (ui_layout c6delta 80 24).horizontal = true
    ∧ (ui_layout c6delta 80 24).bars.length = 5
    ∧ (ui_layout c6delta 80 24).bars.map (fun b => b.start) = [0, 4, 6, 8, 10]
    ∧ (ui_layout c6delta 80 24).bars.map (fun b => b.width) = [3, 1, 1, 1, 1]
    ∧ (ui_layout c6delta 80 24).bars.map (fun b => b.cpu) = [-1, 0, 1, 2, 3]
    ∧ decDigits c6delta.max = 1 := by decide

/-- Claim C8 (the code, not the claim): for the ASCII bar with cutoffs
`456, 512, …` (scale 512, bar length 2), the cell of row 1 is solidly
painted with category 1's color (4, blue) although category 0 covers
200 of the cell's 256 subcells and category 1 only 56 — the scan value
`MIN(cutoff[stat], hi) - val` of the second overlapping segment is
inflated by the cell's base offset, so the "biggest cover" selection
does not pick the largest-coverage category.  Cells are still solid
single-color, space-glyph, default-foreground, as the claim's
non-parenthetical part states. -/
theorem ascii_cell_scan_value_not_coverage :
    ui_bar_column true (barCutoff c8stat 2 512) 2
      = some [⟨0, 255, 2⟩, ⟨0, 255, 4⟩]
    ∧ spec_segCover (barCutoff c8stat 2 512) 1 1 < spec_segCover (barCutoff c8stat 2 512) 1 0
    ∧ statColor 0 = 2 ∧ statColor 1 = 4 := by decide

/-- Claim C9: the only division of the bar computation divides by the
bar's scale (`frameDivisors` is exactly the list of bar scales when
the frame renders); the scale is `real` for per-CPU bars and
`real * online` for the aggregate, so `real > 0` together with
`online > 0` makes every divisor nonzero — while `real > 0` alone does
not, as the aggregate bar of `aggZeroOnline` shows. -/
theorem bar_divisor_is_scale_and_nonzero :
    (∀ (delta : cpustats) (bars : List ui_bar), delta.real ≠ 0 →
      frameDivisors delta bars = bars.map (barScale delta))
    ∧ (∀ (delta : cpustats) (bar : ui_bar), 0 < delta.real → 0 < delta.online →
      barScale delta bar ≠ 0)
    ∧ (0 < aggZeroOnline.real ∧ barScale aggZeroOnline ⟨0, 3, -1⟩ = 0) := by
  refine ⟨fun delta bars h => by simp [frameDivisors, h],
          fun delta bar h1 h2 => ?_, by decide, by decide⟩
  unfold barScale
  split
  · exact Nat.mul_ne_zero (by omega) (by omega)
  · omega

/-- Witness for C9 at a concrete delta and per-CPU bar. -/
theorem bar_divisor_is_scale_and_nonzero_witness :
    barScale c6delta ⟨4, 1, 0⟩ ≠ 0 :=
  bar_divisor_is_scale_and_nonzero.2.1 c6delta ⟨4, 1, 0⟩ (by decide) (by decide)

/-- One entry of the subtraction: when both inputs are online and the
newer sample dominates the older, the wrapped 64-bit subtraction is
the exact difference. -/
theorem cpustat_sub1_exact (old a b : cpustat) (hbd : statBounded a)
    (hm : a.online = true → b.online = true → statLE b a)
    (hon : (cpustat_sub1 old a b).online = true) :
    exactDiff (cpustat_sub1 old a b) a b := by
  unfold cpustat_sub1 at hon ⊢
  by_cases h : a.online && b.online
  · rw [if_pos h] at hon ⊢
    obtain ⟨h1, h2⟩ : a.online = true ∧ b.online = true := by simpa using h
    obtain ⟨m1, m2, m3, m4, m5, m6⟩ := hm h1 h2
    obtain ⟨b1, b2, b3, b4, b5, b6⟩ := hbd
    unfold W64 at b1 b2 b3 b4 b5 b6
    unfold exactDiff wsub W64
    dsimp only
    exact ⟨by omega, by omega, by omega, by omega, by omega, by omega⟩
  · rw [if_neg h] at hon
    simp at hon

/-- Claim C5: for snapshots `a` (newer) and `b` (older) with monotone
counters on the aggregate and on every CPU online in both,
`cpustats_subtract` produces, for the aggregate and for every online
CPU, deltas that are the exact non-negative differences `a - b`
(adding `b` back recovers `a`; no unsigned wraparound occurs). -/
theorem subtract_nonneg_on_monotone (ncpus : Nat) (old a b : cpustats)
    (hbdAvg : statBounded a.avg)
    (hbd : ∀ i, i < ncpus → statBounded (a.cpus.getD i dfltStat))
    (hmAvg : a.avg.online = true → b.avg.online = true → statLE b.avg a.avg)
    (hm : ∀ i, i < ncpus → (a.cpus.getD i dfltStat).online = true →
      (b.cpus.getD i dfltStat).online = true →
      statLE (b.cpus.getD i dfltStat) (a.cpus.getD i dfltStat)) :
    ((cpustats_subtract ncpus old a b).avg.online = true →
      exactDiff (cpustats_subtract ncpus old a b).avg a.avg b.avg)
    ∧ ∀ i, i < ncpus →
        ((cpustats_subtract ncpus old a b).cpus.getD i dfltStat).online = true →
        exactDiff ((cpustats_subtract ncpus old a b).cpus.getD i dfltStat)
          (a.cpus.getD i dfltStat) (b.cpus.getD i dfltStat) := by
  constructor
  · intro hon
    exact cpustat_sub1_exact old.avg a.avg b.avg hbdAvg hmAvg hon
  · intro i hi
    have hget : (cpustats_subtract ncpus old a b).cpus.getD i dfltStat
        = cpustat_sub1 (old.cpus.getD i dfltStat) (a.cpus.getD i dfltStat)
          (b.cpus.getD i dfltStat) := by
      unfold cpustats_subtract
      exact getD_map_range _ ncpus i dfltStat hi
    rw [hget]
    intro hon
    exact cpustat_sub1_exact _ _ _ (hbd i hi) (hm i hi) hon

/-- Witness for C5 at concrete monotone snapshots. -/
theorem subtract_nonneg_on_monotone_witness :
    exactDiff (cpustats_subtract 1 c1init snapA snapB).avg snapA.avg snapB.avg
    ∧ exactDiff ((cpustats_subtract 1 c1init snapA snapB).cpus.getD 0 dfltStat)
        (snapA.cpus.getD 0 dfltStat) (snapB.cpus.getD 0 dfltStat) := by
  have h := subtract_nonneg_on_monotone 1 c1init snapA snapB
    (⟨by decide, by decide, by decide, by decide, by decide, by decide⟩)
    (by intro i hi
        have h0 : i = 0 := by omega
        rw [h0]
        exact ⟨by decide, by decide, by decide, by decide, by decide, by decide⟩)
    (fun _ _ => ⟨by decide, by decide, by decide, by decide, by decide, by decide⟩)
    (by intro i hi _ _
        have h0 : i = 0 := by omega
        rw [h0]
        exact ⟨by decide, by decide, by decide, by decide, by decide, by decide⟩)
  exact ⟨h.1 (by decide), h.2 0 (by decide) (by decide)⟩

/-- Claim C4: for well-formed deltas (the shape `cpustats_subtract`
produces), `cpustats_sets_equal a b` is true iff the two deltas report
the same maximum index and the same online pattern at every index up
to and including it; it is reflexive, and flipping exactly one CPU's
online status between two well-formed deltas makes it false. -/
theorem sets_equal_characterization (ncpus : Nat) (a b : cpustats) (hn : 0 < ncpus)
    (ha : cpustats_wf ncpus a) (hb : cpustats_wf ncpus b) :
    (cpustats_sets_equal a b = true ↔
      a.max = b.max ∧ ∀ i, i ≤ a.max → onlineAt a i = onlineAt b i)
    ∧ cpustats_sets_equal a a = true
    ∧ (∀ j, j < ncpus → onlineAt a j ≠ onlineAt b j →
        (∀ i, i < ncpus → i ≠ j → onlineAt a i = onlineAt b i) →
        cpustats_sets_equal a b = false) := by
  obtain ⟨haL, haC, haM⟩ := ha
  obtain ⟨hbL, hbC, hbM⟩ := hb
  unfold cpusMaxOnline at haM hbM
  have haCnt : a.online = cntIdx a.cpus ncpus := by
    rw [haC, countOnline_eq_cntIdx, haL]
  have hbCnt : b.online = cntIdx b.cpus ncpus := by
    rw [hbC, countOnline_eq_cntIdx, hbL]
  have haBey : ∀ i, a.max < i → (a.cpus.getD i dfltStat).online = false := by
    intro i hi
    by_cases hlen : i < a.cpus.length
    · by_contra hcon
      have hon : (a.cpus.getD i dfltStat).online = true := by
        simpa using hcon
      have := maxOnlineAux_ge a.cpus 0 0 i hlen hon
      omega
    · rw [getD_len_le a.cpus i dfltStat (by omega)]; rfl
  have hbBey : ∀ i, b.max < i → (b.cpus.getD i dfltStat).online = false := by
    intro i hi
    by_cases hlen : i < b.cpus.length
    · by_contra hcon
      have hon : (b.cpus.getD i dfltStat).online = true := by
        simpa using hcon
      have := maxOnlineAux_ge b.cpus 0 0 i hlen hon
      omega
    · rw [getD_len_le b.cpus i dfltStat (by omega)]; rfl
  have haMlt : a.max < ncpus := by
    rcases maxOnlineAux_bound a.cpus 0 0 with h | h
    · omega
    · rw [haL] at h; omega
  have hbMlt : b.max < ncpus := by
    rcases maxOnlineAux_bound b.cpus 0 0 with h | h
    · omega
    · rw [hbL] at h; omega
  have haCol : cntIdx a.cpus ncpus = cntIdx a.cpus (a.max + 1) :=
    cntIdx_stable a.cpus (a.max + 1) ncpus (by omega) (fun i h1 _ => haBey i (by omega))
  have hbCol : cntIdx b.cpus ncpus = cntIdx b.cpus (b.max + 1) :=
    cntIdx_stable b.cpus (b.max + 1) ncpus (by omega) (fun i h1 _ => hbBey i (by omega))
  refine ⟨⟨?_, ?_⟩, ?_, ?_⟩
  · -- sets_equal = true → same max and same pattern up to it
    intro h
    unfold cpustats_sets_equal at h
    by_cases hc : a.max ≠ b.max ∨ a.online ≠ b.online
    · rw [if_pos hc] at h; exact absurd h (by simp)
    · rw [if_neg hc] at h
      push_neg at hc
      obtain ⟨hmax, honl⟩ := hc
      have hloop := (setsEqLoop_iff a b a.max).mp h
      refine ⟨hmax, fun i hi => ?_⟩
      rcases Nat.lt_or_eq_of_le hi with hlt | heq
      · exact hloop i hlt
      · subst heq
        have e1 : cntIdx a.cpus (a.max + 1) = cntIdx b.cpus (a.max + 1) := by
          calc cntIdx a.cpus (a.max + 1) = cntIdx a.cpus ncpus := haCol.symm
            _ = a.online := haCnt.symm
            _ = b.online := honl
            _ = cntIdx b.cpus ncpus := hbCnt
            _ = cntIdx b.cpus (b.max + 1) := hbCol
            _ = cntIdx b.cpus (a.max + 1) := by rw [hmax]
        have e3 : cntIdx a.cpus a.max = cntIdx b.cpus a.max :=
          cntIdx_congr _ _ _ (fun k hk => hloop k hk)
        have e4 : cntIdx a.cpus a.max + (if (a.cpus.getD a.max dfltStat).online then 1 else 0)
            = cntIdx b.cpus a.max + (if (b.cpus.getD a.max dfltStat).online then 1 else 0) := e1
        rw [e3] at e4
        have e5 := Nat.add_left_cancel e4
        rcases Bool.eq_false_or_eq_true (a.cpus.getD a.max dfltStat).online with hx | hx <;>
          rcases Bool.eq_false_or_eq_true (b.cpus.getD a.max dfltStat).online with hy | hy
        · show (a.cpus.getD a.max dfltStat).online = (b.cpus.getD a.max dfltStat).online
          rw [hx, hy]
        · rw [hx, hy] at e5; simp at e5
        · rw [hx, hy] at e5; simp at e5
        · show (a.cpus.getD a.max dfltStat).online = (b.cpus.getD a.max dfltStat).online
          rw [hx, hy]
  · -- same max and same pattern up to it → sets_equal = true
    rintro ⟨hmax, hpat⟩
    have e3 : cntIdx a.cpus (a.max + 1) = cntIdx b.cpus (a.max + 1) :=
      cntIdx_congr _ _ _ (fun i hi => hpat i (by omega))
    have honl : a.online = b.online := by
      rw [haCnt, hbCnt, haCol, hbCol, ← hmax, e3]
    unfold cpustats_sets_equal
    rw [if_neg (by push_neg; exact ⟨hmax, honl⟩)]
    exact (setsEqLoop_iff a b a.max).mpr (fun i hi => hpat i (Nat.le_of_lt hi))
  · -- reflexivity
    unfold cpustats_sets_equal
    rw [if_neg (by push_neg; exact ⟨rfl, rfl⟩)]
    exact (setsEqLoop_iff a a a.max).mpr (fun i _ => rfl)
  · -- flipping exactly one CPU's status falsifies it
    intro j hj hne hagree
    have hcnt : a.online ≠ b.online := by
      rw [haCnt, hbCnt]
      exact cntIdx_flip a.cpus b.cpus j ncpus hj (fun i h1 h2 => hagree i h1 h2) hne
    unfold cpustats_sets_equal
    rw [if_pos (Or.inr hcnt)]

/-- Witness for C4: reflexivity on a concrete well-formed delta, and
falsity after flipping CPU 0's status. -/
theorem sets_equal_characterization_witness :
    cpustats_sets_equal wfA wfA = true ∧ cpustats_sets_equal wfA wfB = false := by
  have h := sets_equal_characterization 2 wfA wfB (by decide) ⟨rfl, rfl, rfl⟩ ⟨rfl, rfl, rfl⟩
  refine ⟨h.2.1, h.2.2 0 (by decide) (by decide) ?_⟩
  intro i hi hne
  have h1 : i = 1 := by omega
  rw [h1]
  decide

/-- The C idiom `(a + b - 1) / b` (here `Int.tdiv`, all operands
non-negative) computes the ceiling of the exact quotient. -/
theorem tdiv_ceil_formula (a b : ℤ) (ha : 0 ≤ a) (hb : 0 < b) :
    Int.tdiv (a + b - 1) b = ⌈(a : ℚ) / (b : ℚ)⌉ := by
  have hnum : 0 ≤ a + b - 1 := by omega
  rw [Int.tdiv_eq_ediv hnum (by omega)]
  have hdm := Int.ediv_add_emod (a + b - 1) b
  have hr0 : 0 ≤ (a + b - 1) % b := Int.emod_nonneg _ (by omega)
  have hrb : (a + b - 1) % b < b := Int.emod_lt_of_pos _ hb
  have h1 : a ≤ b * ((a + b - 1) / b) := by omega
  have h2 : b * ((a + b - 1) / b - 1) < a := by
    have hmul : b * ((a + b - 1) / b - 1) = b * ((a + b - 1) / b) - b := by ring
    omega
  have hbq : (0 : ℚ) < (b : ℚ) := by exact_mod_cast hb
  symm
  rw [Int.ceil_eq_iff]
  constructor
  · have h2' : (b : ℚ) * ((((a + b - 1) / b : ℤ) : ℚ) - 1) < (a : ℚ) := by
      exact_mod_cast h2
    exact (lt_div_iff₀ hbq).mpr (by linarith [h2'])
  · have h1' : (a : ℚ) ≤ (b : ℚ) * (((a + b - 1) / b : ℤ) : ℚ) := by exact_mod_cast h1
    exact (div_le_iff₀ hbq).mpr (by linarith [h1'])

/-- Claim C7: when even the vertical one-column layout cannot fit (the
horizontal and padded-vertical branches fail, `online >= w` and
`COLS >= 2`), the number of panes is `ceil(total_width /
(terminal_cols - 1))` with `total_width = 4 + online`; in particular,
200 online CPUs on an 80×24 terminal give `ceil(204 / 79) = 3` panes,
and every per-CPU bar's column falls inside exactly one pane. -/
theorem layout_pane_count_is_ceil (d : cpustats) (ncol nrow : Int)
    (hhoriz : ¬ ((decDigits d.max : Int) + 1) * (d.online : Int) < ncol - 4)
    (hpad : ¬ (d.online : Int) * 2 < ncol - 4)
    (hfit : ncol - 4 ≤ (d.online : Int)) (hcols : 2 ≤ ncol) :
    (((ui_layout d ncol nrow).panes.length : Int)
        = ⌈((4 + (d.online : Int) : Int) : ℚ) / (((ncol : ℚ)) - 1)⌉)
    ∧ (c7layout.panes.length = 3
       ∧ (3 : Int) = ⌈(204 : ℚ) / 79⌉
       ∧ ∀ b ∈ c7layout.bars, b.cpu ≠ -1 →
           c7layout.panes.countP
             (fun p => decide (p.barpos ≤ b.start ∧ b.start < p.barpos + p.width)) = 1) := by
  constructor
  · simp only [ui_layout]
    rw [if_neg hhoriz, if_neg hpad, if_pos (And.intro hfit hcols)]
    simp only [trimLastPane_length, List.length_map, List.length_range]
    have hA : (0 : Int) ≤ 4 + (d.online : Int) + ncol - 2 := by omega
    have hnp : 0 ≤ Int.tdiv (4 + (d.online : Int) + ncol - 2) (ncol - 1) :=
      Int.tdiv_nonneg hA (by omega)
    rw [Int.toNat_of_nonneg hnp]
    have heq : 4 + (d.online : Int) + ncol - 2 = 4 + (d.online : Int) + (ncol - 1) - 1 := by ring
    rw [heq, tdiv_ceil_formula (4 + (d.online : Int)) (ncol - 1) (by omega) (by omega)]
    push_cast
    ring_nf
  · refine ⟨by decide, by symm; rw [Int.ceil_eq_iff]; norm_num, ?_⟩
    set_option maxRecDepth 20000 in decide

/-- Witness for C7's general pane-count formula at the 200-CPU, 80×24
instance. -/
theorem layout_pane_count_is_ceil_witness :
    ((ui_layout c7delta 80 24).panes.length : Int)
      = ⌈((4 + (c7delta.online : Int) : Int) : ℚ) / ((((80 : Int) : ℚ)) - 1)⌉ :=
  (layout_pane_count_is_ceil c7delta 80 24 (by decide) (by decide) (by decide)
    (by decide)).1

/-- Invariant of the two-biggest scan: entered at `stat ≤ NSTATS` with
a non-negative running value bounded by `min (cutoff stat) hi` and a
non-negative leader, it ends with both leaderboard values
non-negative, at a stat `≤ NSTATS` whose cutoff reaches `hi`. -/
theorem findTop2Go_spec (cutoff : Nat → Int) (hi : Int)
    (hmono : ∀ i j, i ≤ j → j ≤ NSTATS → cutoff i ≤ cutoff j)
    (hsent : hi ≤ cutoff NSTATS) :
    ∀ fuel stat val (t0 t1 : Nat × Int), fuel = NSTATS + 1 - stat → stat ≤ NSTATS →
      0 ≤ val → val ≤ min (cutoff stat) hi → 0 ≤ t0.2 →
      0 ≤ (findTop2Go cutoff hi fuel stat val t0 t1).2.1.2
      ∧ 0 ≤ (findTop2Go cutoff hi fuel stat val t0 t1).2.2.2
      ∧ (findTop2Go cutoff hi fuel stat val t0 t1).1 ≤ NSTATS
      ∧ hi ≤ cutoff (findTop2Go cutoff hi fuel stat val t0 t1).1 := by
  intro fuel
  induction fuel with
  | zero =>
    intro stat val t0 t1 hfuel hstat _ _ _
    exfalso
    omega
  | succ fuel ih =>
    intro stat val t0 t1 hfuel hstat hv0 hvle ht0
    simp only [findTop2Go]
    have hvpos : 0 ≤ min (cutoff stat) hi - val := by omega
    by_cases hbreak : hi ≤ cutoff stat
    · rw [if_pos hbreak]
      refine ⟨?_, ?_, hstat, hbreak⟩ <;>
        (split_ifs with h01 h02 <;> dsimp only <;> omega)
    · rw [if_neg hbreak]
      have hlt : stat < NSTATS := by
        by_contra hcon
        have hEq : stat = NSTATS := by omega
        rw [hEq] at hbreak
        exact hbreak hsent
      have hmono' : cutoff stat ≤ cutoff (stat + 1) :=
        hmono stat (stat + 1) (by omega) (by omega)
      have hvle' : min (cutoff stat) hi - val ≤ min (cutoff (stat + 1)) hi := by omega
      split_ifs with h01 h02
      · exact ih (stat + 1) (min (cutoff stat) hi - val)
          (stat, min (cutoff stat) hi - val) t0 (by omega) (by omega) hvpos hvle' hvpos
      · exact ih (stat + 1) (min (cutoff stat) hi - val)
          t0 (stat, min (cutoff stat) hi - val) (by omega) (by omega) hvpos hvle' ht0
      · exact ih (stat + 1) (min (cutoff stat) hi - val)
          t0 t1 (by omega) (by omega) hvpos hvle' ht0

/-- One cell of the bar loop never hits the `topVal` "bug" branch when
the cutoffs are monotone, at least `lo` at the entry stat, and the
sentinel reaches `hi`; the exit stat's cutoff covers the next cell's
base. -/
theorem ui_cell_isSome (ascii : Bool) (cutoff : Nat → Int) (len stat : Nat)
    (hmono : ∀ i j, i ≤ j → j ≤ NSTATS → cutoff i ≤ cutoff j)
    (hsentc : (((len + 1) * subcells : Nat) : Int) ≤ cutoff NSTATS)
    (hstat : stat < NSTATS)
    (hlo : ((len * subcells : Nat) : Int) ≤ cutoff stat) :
    ∃ c stat', ui_cell ascii cutoff len stat = some (c, stat')
      ∧ stat' ≤ NSTATS ∧ (((len + 1) * subcells : Nat) : Int) ≤ cutoff stat' := by
  have hlo0 : (0 : Int) ≤ ((len * subcells : Nat) : Int) := Int.ofNat_nonneg _
  unfold ui_cell
  by_cases hsolid : (((len + 1) * subcells : Nat) : Int) ≤ cutoff stat
  · refine ⟨⟨0, 255, statColor stat⟩, stat, ?_, Nat.le_of_lt hstat, hsolid⟩
    rw [if_pos hsolid]
  · rw [if_neg hsolid]
    unfold findTop2
    generalize hLO : (((len * subcells : Nat)) : Int) = lo at hlo hlo0
    generalize hHI : ((((len + 1) * subcells : Nat)) : Int) = hi at hsentc hsolid ⊢
    have hfs : NSTATS + 1 - stat = (NSTATS - stat) + 1 := by omega
    rw [hfs]
    simp only [findTop2Go]
    have hc1 : (((0 : Nat), (-1 : Int)) : Nat × Int).2 < min (cutoff stat) hi - lo := by
      show (-1 : Int) < min (cutoff stat) hi - lo
      omega
    rw [if_pos hc1, if_neg hsolid]
    dsimp only
    have hmono' : cutoff stat ≤ cutoff (stat + 1) :=
      hmono stat (stat + 1) (by omega) (by omega)
    have happ := findTop2Go_spec cutoff hi hmono hsentc (NSTATS - stat) (stat + 1)
      (min (cutoff stat) hi - lo) (stat, min (cutoff stat) hi - lo)
      ((0 : Nat), (-1 : Int)) (by omega) (by omega) (by omega) (by omega) (by dsimp only; omega)
    obtain ⟨hr0, hr1, hrs, hrc⟩ := happ
    rw [if_neg (by push_neg; omega)]
    split_ifs with hA
    · exact ⟨_, _, rfl, hrs, hrc⟩
    · exact ⟨_, _, rfl, hrs, hrc⟩

/-- The bar's cell loop succeeds for every cell when the cutoffs are
monotone with sentinel `barLen * subcells`. -/
theorem ui_columnGo_isSome (ascii : Bool) (cutoff : Nat → Int) (barLen : Nat)
    (hmono : ∀ i j, i ≤ j → j ≤ NSTATS → cutoff i ≤ cutoff j)
    (hsent : cutoff NSTATS = ((barLen * subcells : Nat) : Int)) :
    ∀ fuel len stat, barLen = len + fuel → stat ≤ NSTATS →
      ((len * subcells : Nat) : Int) ≤ cutoff stat →
      (ui_columnGo ascii cutoff barLen fuel len stat).isSome = true := by
  intro fuel
  induction fuel with
  | zero => intro len stat _ _ _; simp [ui_columnGo]
  | succ fuel ih =>
    intro len stat hlen hstat hlo
    simp only [ui_columnGo]
    by_cases hs : stat < NSTATS
    · have hsentc : (((len + 1) * subcells : Nat) : Int) ≤ cutoff NSTATS := by
        rw [hsent]
        have hmul : (len + 1) * subcells ≤ barLen * subcells :=
          Nat.mul_le_mul_right _ (by omega)
        exact_mod_cast hmul
      obtain ⟨c, stat', heq, hstat', hlo'⟩ :=
        ui_cell_isSome ascii cutoff len stat hmono hsentc hs hlo
      rw [if_pos hs, heq]
      dsimp only
      have hrec := ih (len + 1) stat' (by omega) hstat' hlo'
      cases hcol : ui_columnGo ascii cutoff barLen fuel (len + 1) stat' with
      | none => rw [hcol] at hrec; simp at hrec
      | some rest => rfl
    · rw [if_neg hs]; simp

/-- Monotonicity of the running sum over `ui_stats`. -/
theorem cumm_mono (c : cpustat) : ∀ i j, i ≤ j → cumm c i ≤ cumm c j := by
  intro i j hij
  induction j with
  | zero =>
    have h0 : i = 0 := by omega
    rw [h0]
  | succ j ih =>
    by_cases h : i = j + 1
    · rw [h]
    · have h2 : i ≤ j := by omega
      have h3 := ih h2
      simp only [cumm]
      omega

/-- When every cumulative sum stays within the scale, the bar's cutoff
array is monotone. -/
theorem barCutoff_mono (c : cpustat) (barLen scale : Nat) (hscale : 0 < scale)
    (hbound : ∀ i, i < NSTATS → cumm c i ≤ scale) :
    ∀ i j, i ≤ j → j ≤ NSTATS → barCutoff c barLen scale i ≤ barCutoff c barLen scale j := by
  intro i j hij hj
  unfold barCutoff
  by_cases hiN : i < NSTATS
  · by_cases hjN : j < NSTATS
    · rw [if_pos hiN, if_pos hjN]
      have hmul : cumm c i * barLen * subcells ≤ cumm c j * barLen * subcells :=
        Nat.mul_le_mul_right _ (Nat.mul_le_mul_right _ (cumm_mono c i j hij))
      exact_mod_cast Nat.div_le_div_right hmul
    · rw [if_pos hiN, if_neg hjN]
      have h1 : cumm c i * barLen * subcells ≤ scale * (barLen * subcells) := by
        calc cumm c i * barLen * subcells = cumm c i * (barLen * subcells) := by ring
          _ ≤ scale * (barLen * subcells) := Nat.mul_le_mul_right _ (hbound i hiN)
      have h2 : cumm c i * barLen * subcells / scale ≤ barLen * subcells := by
        have h3 : cumm c i * barLen * subcells / scale
            ≤ scale * (barLen * subcells) / scale := Nat.div_le_div_right h1
        rwa [Nat.mul_div_cancel_left _ hscale] at h3
      exact_mod_cast h2
  · have hiEq : i = NSTATS := by omega
    have hjEq : j = NSTATS := by omega
    rw [hiEq, hjEq]

/-- Claim C10: for a bar whose cumulative category sums never exceed
its (positive) scale, the cutoff array is non-decreasing, bounded by
`bar_length * subcells` and ends with that sentinel, and the cell
computation completes for every cell — the `topVal` "bug"/panic
branch is unreachable. -/
theorem compute_cells_no_topval_bug (c : cpustat) (barLen scale : Nat) (ascii : Bool)
    (hscale : 0 < scale) (hbound : ∀ i, i < NSTATS → cumm c i ≤ scale) :
    (∀ i j, i ≤ j → j ≤ NSTATS → barCutoff c barLen scale i ≤ barCutoff c barLen scale j)
    ∧ (∀ i, i ≤ NSTATS → barCutoff c barLen scale i ≤ ((barLen * subcells : Nat) : Int))
    ∧ barCutoff c barLen scale NSTATS = ((barLen * subcells : Nat) : Int)
    ∧ (ui_bar_column ascii (barCutoff c barLen scale) barLen).isSome = true := by
  have hmono := barCutoff_mono c barLen scale hscale hbound
  have hsent : barCutoff c barLen scale NSTATS = ((barLen * subcells : Nat) : Int) := by
    unfold barCutoff
    rw [if_neg (by omega : ¬ NSTATS < NSTATS)]
  refine ⟨hmono, ?_, hsent, ?_⟩
  · intro i hi
    have h1 := hmono i NSTATS hi (Nat.le_refl _)
    rwa [hsent] at h1
  · unfold ui_bar_column
    refine ui_columnGo_isSome ascii (barCutoff c barLen scale) barLen hmono hsent
      barLen 0 0 (by omega) (by omega) ?_
    have h0 : ((0 * subcells : Nat) : Int) = 0 := by norm_num
    rw [h0]
    unfold barCutoff
    rw [if_pos (by decide : 0 < NSTATS)]
    exact Int.ofNat_nonneg _

/-- Witness for C10 at a concrete in-bounds bar. -/
theorem compute_cells_no_topval_bug_witness :
    (ui_bar_column false (barCutoff c10stat 3 100) 3).isSome = true :=
  (compute_cells_no_topval_bug c10stat 3 100 false (by decide) (by decide)).2.2.2
